import Mathlib

/-!
Verification of the FangPro price-acquisition subsystem (backend/scraper.go
and the HTTP read paths) against its natural-language specification.

Modelling conventions:
* Go `float64` prices are modelled as rationals (ℚ); the numeric claims of
  the spec (exact digit-concatenation value, price > 0, ±2% bounds) are
  about real-number semantics, so ℚ is the faithful idealisation.
* Go unix timestamps (`time.Now().Unix()`) are modelled as ℤ; Go's `%` is
  truncated division, i.e. `Int.tmod`.
* HTTP / HTML / SQL side effects are made explicit: a fetched page is either
  a transport-or-parse error (`none`) or a parsed table (a list of rows,
  each row a list of cell strings); the database is a list of rows; a
  provider outcome is `Except String (List ScrapedPrice)` mirroring the Go
  `([]ScrapedPrice, error)` return.
-/

namespace FangPro

/-- `ScrapedPrice` — the record produced by a scraper (scraper.go lines
17-24).  `ScrapedAt` holds the unix time of the scrape. -/
structure ScrapedPrice where
  Region : String
  Price : ℚ
  Quality : String
  Source : String
  ScrapedAt : ℤ
  SourceURL : String
deriving DecidableEq

/-- A character survives the cleaning regex `[^\d.]` of `extractPrice`
iff it is a decimal digit or a dot (scraper.go line 265). -/
def isPriceChar (c : Char) : Bool := c.isDigit || c == '.'

/-- `cleaned := re.ReplaceAllString(s, "")` for `re = [^\d.]`
(scraper.go line 266): keep exactly the digits and dots. -/
def cleanPrice (l : List Char) : List Char := l.filter isPriceChar

/-- Value of a digit string read left to right (the mantissa accumulation
performed by `strconv.ParseFloat`). -/
def digitsVal (l : List Char) : ℕ := l.foldl (fun a c => 10 * a + (c.toNat - 48)) 0

/-- Model of `strconv.ParseFloat(cleaned, 64)` (scraper.go line 268) on the
already-cleaned string, with the value taken in exact (rational) arithmetic.
Go's ParseFloat accepts a decimal mantissa `digits [. digits]`, `.digits` or
`digits.` — i.e. at least one digit and at most one dot — and rejects
everything else (sign, exponent and inf/nan forms cannot occur here because
cleaning already removed every character that is not a digit or a dot). -/
def parseFloatQ (l : List Char) : Option ℚ :=
  if l.all isPriceChar ∧ l.count '.' ≤ 1 ∧ l.any Char.isDigit then
    some ((digitsVal (l.takeWhile (fun c => c != '.')) : ℚ) +
      (digitsVal ((l.dropWhile (fun c => c != '.')).drop 1) : ℚ) /
        (10 : ℚ) ^ ((l.dropWhile (fun c => c != '.')).drop 1).length)
  else none

/-- `extractPrice` (scraper.go lines 263-274): strip every character that is
not a digit or a dot, parse the remainder, and return 0 on parse failure. -/
def extractPrice (s : List Char) : ℚ :=
  match parseFloatQ (cleanPrice s) with
  | some q => q
  | none => 0

/-- The spec-side value of a raw price string: the number formed by
concatenating the digits, and the (single) decimal point, in their original
order — integer part from the digits before the dot, fractional part from
the digits after it.  This is computed on the RAW string, independently of
`extractPrice`'s clean-then-parse pipeline. -/
def specConcatValue (s : List Char) : ℚ :=
  (digitsVal ((s.takeWhile (fun c => c != '.')).filter Char.isDigit) : ℚ) +
    (digitsVal (((s.dropWhile (fun c => c != '.')).drop 1).filter Char.isDigit) : ℚ) /
      (10 : ℚ) ^ (((s.dropWhile (fun c => c != '.')).drop 1).filter Char.isDigit).length

/-- A provider outcome, mirroring Go's `([]ScrapedPrice, error)`. -/
abbrev ScrapeOutcome := Except String (List ScrapedPrice)

/-- A provider attempt "failed to produce usable data" when it returned an
error or an empty record list (the two `continue` cases of `ScrapeAll`). -/
def failedOutcome (o : ScrapeOutcome) : Bool :=
  match o with
  | .error _ => true
  | .ok l => l.isEmpty

/-- The provider loop of `ScraperManager.ScrapeAll` (scraper.go lines
239-253): `acc` is the running `allPrices`; an error or an empty result
continues to the next scraper; the first non-empty success is appended and
the loop breaks. -/
def scrapeAllLoop : List ScrapeOutcome → List ScrapedPrice → List ScrapedPrice
  | [], acc => acc
  | o :: rest, acc =>
    match o with
    | .error _ => scrapeAllLoop rest acc
    | .ok prices => if prices.length > 0 then acc ++ prices else scrapeAllLoop rest acc

/-- `ScraperManager.ScrapeAll` (scraper.go lines 236-260): run the provider
loop, and fail with "all scrapers failed" iff no prices were accumulated. -/
def scrapeAll (outcomes : List ScrapeOutcome) : ScrapeOutcome :=
  let allPrices := scrapeAllLoop outcomes []
  if allPrices.length = 0 then .error "all scrapers failed" else .ok allPrices

/-- Number of providers whose `Scrape()` is invoked by `ScrapeAll`: every
loop iteration invokes one provider; the loop breaks right after the first
non-empty success. -/
def scrapeAllInvoked : List ScrapeOutcome → ℕ
  | [] => 0
  | o :: rest =>
    1 + (match o with
      | .error _ => scrapeAllInvoked rest
      | .ok prices => if prices.length > 0 then 0 else scrapeAllInvoked rest)

/-- `strings.TrimSpace` on the character list: drop leading and trailing
whitespace. -/
def trimChars (l : List Char) : List Char :=
  ((l.dropWhile Char.isWhitespace).reverse.dropWhile Char.isWhitespace).reverse

/-- `strings.TrimSpace` (scraper.go lines 78-79). -/
def trimSpace (s : String) : String := ⟨trimChars s.data⟩

/-- One table row of a fetched BAPPEBTI page: the list of `td` cell texts. -/
abbrev Row := List String

/-- A fetched page: `none` when the HTTP GET or the goquery HTML parse
failed (both `continue` to the next URL, scraper.go lines 58-69); otherwise
the rows found by `doc.Find("table tbody tr")`. -/
abbrev Page := Option (List Row)

/-- Processing of one table row by `BAPPEBTIScraper.Scrape` (scraper.go
lines 72-93): skip rows with fewer than 4 columns, take the region from
cell 1 and the raw price from cell 2 (whitespace-trimmed), and keep the row
only when the extracted price is strictly positive. -/
def scrapeRow (url : String) (t : ℤ) (row : Row) : List ScrapedPrice :=
  if row.length < 4 then []
  else
    let region := trimSpace (row.getD 1 "")
    let priceStr := trimSpace (row.getD 2 "")
    let price := extractPrice priceStr.data
    if 0 < price then
      [{ Region := region, Price := price, Quality := "Standard",
         Source := "BAPPEBTI Info Harga", ScrapedAt := t, SourceURL := url }]
    else []

/-- `BAPPEBTIScraper.Scrape` (scraper.go lines 47-97): accumulate the
retained rows across all fetched pages; a page that failed to fetch or
parse contributes nothing.  The function always returns `(prices, nil)`,
so its outcome is always `ok`. -/
def bappebtiScrape (pages : List (String × Page)) (t : ℤ) : List ScrapedPrice :=
  pages.flatMap (fun up =>
    match up.2 with
    | none => []
    | some rows => rows.flatMap (scrapeRow up.1 t))

/-- Outcome of the BAPPEBTI provider: `return prices, nil` (scraper.go
line 96) — never a hard failure. -/
def bappebtiOutcome (pages : List (String × Page)) (t : ℤ) : ScrapeOutcome :=
  .ok (bappebtiScrape pages t)

/-- `PriceResearch` (scraper.go lines 151-156).  `DateYMD` holds the
`DateChecked` value already rendered with Go layout "2006-01-02"
(e.g. `time.Date(2024, 9, 15, ...)` renders as "2024-09-15"). -/
structure PriceResearch where
  BasePrice : ℚ
  DateYMD : String
  Source : String
  Notes : String
deriving DecidableEq

/-- The `LastResearch` dataset built by `NewMockScraperWithRealData`
(scraper.go lines 158-193), in the source literal's entry order.  Go maps
iterate in unspecified order, so no claim below depends on the order of
this list — only on its entries. -/
def lastResearch : List (String × PriceResearch) :=
  [("Jember", { BasePrice := 85000, DateYMD := "2024-09-15",
                Source := "DPRD Jember Report",
                Notes := "Harga tengkulak, kualitas standard" }),
   ("Temanggung", { BasePrice := 150000, DateYMD := "2024-09-18",
                    Source := "InfoPublik + ANTARA News",
                    Notes := "Kualitas F, panen 2024, cuaca baik" }),
   ("Lombok", { BasePrice := 78000, DateYMD := "2024-08-01",
                Source := "Market Survey",
                Notes := "Tembakau Lombok, kualitas standard" }),
   ("Klaten", { BasePrice := 88000, DateYMD := "2024-07-15",
                Source := "Local Market",
                Notes := "Estimasi berdasarkan harga regional" }),
   ("Pamekasan", { BasePrice := 95000, DateYMD := "2024-08-20",
                   Source := "Madura Market Survey",
                   Notes := "Tembakau Madura premium" })]

/-- `variation := (time.Now().Unix() % 5) - 2` (scraper.go line 204); Go's
`%` on int64 truncates toward zero, i.e. `Int.tmod`. -/
def mockVariation (t : ℤ) : ℤ := t.tmod 5 - 2

/-- `dailyFactor := 1.0 + float64(variation)/100.0` (scraper.go line 205). -/
def mockFactor (t : ℤ) : ℚ := 1 + (mockVariation t : ℚ) / 100

/-- `MockScraperWithRealData.Scrape` (scraper.go lines 199-220): one record
per dataset region, price = base price times the daily factor, source
stamped as `"%s (Last checked: %s)"` of the research source and the
checked date.  `t` is the unix time observed during the call. -/
def mockScrape (t : ℤ) : List ScrapedPrice :=
  lastResearch.map (fun rp =>
    { Region := rp.1,
      Price := rp.2.BasePrice * mockFactor t,
      Quality := "Standard",
      Source := rp.2.Source ++ " (Last checked: " ++ rp.2.DateYMD ++ ")",
      ScrapedAt := t,
      SourceURL := "Manual Research + Market Data" })

/-- Outcome of the simulated provider: `return prices, nil` (scraper.go
line 219) — never fails. -/
def mockOutcome (t : ℤ) : ScrapeOutcome := .ok (mockScrape t)

/-- The provider outcomes of the manager built by `NewScraperManager`
(scraper.go lines 227-234): BAPPEBTI first, the research-backed simulated
provider as fallback.  `pages` is what the BAPPEBTI fetches observe, `t`
the unix time of the live scrape, `tm` the unix time of the mock scrape. -/
def managerOutcomes (pages : List (String × Page)) (t tm : ℤ) : List ScrapeOutcome :=
  [bappebtiOutcome pages t, mockOutcome tm]

/-- The save loop of `AutoFetchPricesFromScraper` (scraper.go lines
284-292): each record is handed to `SaveScrapedPrice` individually;
`saveOk` tells whether the insert succeeds; a failed insert is logged and
skipped (`continue`), the loop always runs to the end.  Returns the
successfully persisted records in order. -/
def saveLoop (saveOk : ScrapedPrice → Bool) : List ScrapedPrice → List ScrapedPrice
  | [] => []
  | p :: rest =>
    if saveOk p then p :: saveLoop saveOk rest else saveLoop saveOk rest

/-- `AutoFetchPricesFromScraper` (scraper.go lines 277-295): run
`ScrapeAll`, propagate its error, otherwise save each record individually
and return nil.  The model also exposes the records actually persisted. -/
def autoFetchPricesFromScraper (outcomes : List ScrapeOutcome)
    (saveOk : ScrapedPrice → Bool) : Except String Unit × List ScrapedPrice :=
  match scrapeAll outcomes with
  | .error e => (.error e, [])
  | .ok prices => (.ok (), saveLoop saveOk prices)

/-- A row of the `prices` table (schema of db.go / part_001: id INTEGER
PRIMARY KEY AUTOINCREMENT, region, price, unit, source, recorded_at,
created_at TEXT).  `created_at` strings of the form
"YYYY-MM-DD HH:MM:SS" compare chronologically under lexicographic order. -/
structure PriceRow where
  id : ℕ
  region : String
  price : ℚ
  unit : String
  source : String
  recorded_at : String
  created_at : String
deriving DecidableEq

/-- `SaveScrapedPrice` (scraper.go lines 298-308): the inserted row stores
unit "kg" unconditionally and source `"%s (Scraped: %s)"` of the record's
source and quality.  `recordedAtStr` stands for
`data.ScrapedAt.Format("2006-01-02 15:04:05")` (the timestamp rendering is
not itself under any claim), `newId` and `createdAt` are assigned by the
database. -/
def saveScrapedPrice (data : ScrapedPrice) (recordedAtStr : String)
    (newId : ℕ) (createdAt : String) : PriceRow :=
  { id := newId,
    region := data.Region,
    price := data.Price,
    unit := "kg",
    source := data.Source ++ " (Scraped: " ++ data.Quality ++ ")",
    recorded_at := recordedAtStr,
    created_at := createdAt }

/-- The row selected by `GetLatestPriceJSON`'s query
`SELECT ... WHERE region = ? ORDER BY created_at DESC LIMIT 1`
(part_003 lines 48-54) from the region-filtered rows, scanned in table
order: keep the row with the larger `created_at`; on a tie keep the
earlier row.  (SQLite guarantees only the `created_at` ordering — the
query has no secondary sort key — so among tied rows the choice follows
the scan order.)  TEXT values compare by byte order, i.e. lexicographic
order of the character list for these ASCII timestamps. -/
def pickLatest : List PriceRow → Option PriceRow
  | [] => none
  | p :: rest =>
    match pickLatest rest with
    | none => some p
    | some b => if p.created_at.data < b.created_at.data then some b else some p

/-- `GetLatestPriceJSON` (part_003 lines 45-66): exact-match filter on
`region`, then the latest row by `created_at`; `none` models the
"no price data found for region" error when the query returns no row. -/
def getLatestPrice (db : List PriceRow) (region : String) : Option PriceRow :=
  pickLatest (db.filter (fun p => p.region == region))

/-- `getRegionOrDefault` (part_005 lines 215-220): empty region parameter
defaults to "Jember". -/
def getRegionOrDefault (region : String) : String :=
  if region = "" then "Jember" else region

/-- `GetCurrentPriceHandler` for `GET /harga/current` (part_005 lines
856-874): read the `region` query parameter (defaulted), then return
`GetLatestPriceJSON(region)` — a database read; no scraping pass runs. -/
def getCurrentPriceHandler (db : List PriceRow) (qregion : String) : Option PriceRow :=
  getLatestPrice db (getRegionOrDefault qregion)

/-- `strings.EqualFold` modelled as case-insensitive comparison via
character-wise lower-casing (the region names in play are ASCII, where
Unicode simple folding and per-character `toLower` agree). -/
def equalFold (a b : String) : Bool :=
  a.data.map Char.toLower == b.data.map Char.toLower

/-- `GetScrapedPriceJSON` (scraper.go lines 311-327), the `previewRegion`
operation of the spec: run a fresh `ScrapeAll` pass and return the first
record whose region matches case-insensitively, or a not-found error.
No HTTP route invokes this function. -/
def getScrapedPrice (outcomes : List ScrapeOutcome) (region : String) :
    Except String ScrapedPrice :=
  match scrapeAll outcomes with
  | .error e => .error e
  | .ok prices =>
    match prices.find? (fun p => equalFold p.Region region) with
    | some p => .ok p
    | none => .error "region not found in scraped data"

/-- A sample live-source record, used to instantiate theorems on concrete
inputs. -/
def sampleLive : ScrapedPrice :=
  { Region := "Boyolali", Price := 46000, Quality := "Standard",
    Source := "BAPPEBTI Info Harga", ScrapedAt := 0,
    SourceURL := "https://infoharga.bappebti.go.id/harga_komoditi_pedagang" }

/-- A second sample record for a lower-priority provider. -/
def sampleOther : ScrapedPrice :=
  { Region := "Temanggung", Price := 150000, Quality := "Standard",
    Source := "News Portal Scraper", ScrapedAt := 0, SourceURL := "n" }

/-- Two persisted rows for the same region sharing one `created_at`
second (the schema's `created_at` has second resolution, so ties occur);
`rowOld` was inserted first and got the smaller id. -/
def rowOld : PriceRow :=
  { id := 1, region := "Jember", price := 83300, unit := "kg",
    source := "s1", recorded_at := "2024-10-01 08:00:00",
    created_at := "2024-10-01 08:00:00" }

/-- The later insert in the tied pair: same region, same `created_at`,
larger id. -/
def rowNew : PriceRow :=
  { id := 2, region := "Jember", price := 99000, unit := "kg",
    source := "s2", recorded_at := "2024-10-01 08:00:00",
    created_at := "2024-10-01 08:00:00" }

/-- A concrete BAPPEBTI fetch: one page with one well-formed table row
("Rp 46.000" cleans to "46.000" and parses to 46). -/
def samplePages : List (String × Page) :=
  [("https://u", some [["1", "Boyolali", "Rp 46.000", "Standard"]])]

/-- The record the live scraper produces from `samplePages`. -/
def sampleParsed : ScrapedPrice :=
  { Region := "Boyolali", Price := 46, Quality := "Standard",
    Source := "BAPPEBTI Info Harga", ScrapedAt := 0, SourceURL := "https://u" }

/-! ## The acquisition coordinator: `ScrapeAll` -/

/-- If every outcome in the list failed (error or zero records), the loop
returns its accumulator unchanged. -/
theorem scrapeAllLoop_all_failed (outcomes : List ScrapeOutcome) (acc : List ScrapedPrice)
    (h : ∀ o ∈ outcomes, failedOutcome o = true) :
    scrapeAllLoop outcomes acc = acc := by
  induction outcomes with
  | nil => rfl
  | cons o rest ih =>
    have ho := h o (List.mem_cons_self o rest)
    have hrest : ∀ o ∈ rest, failedOutcome o = true := fun o hm => h o (List.mem_cons_of_mem _ hm)
    cases o with
    | error e => simpa [scrapeAllLoop] using ih hrest
    | ok l =>
      simp only [failedOutcome, List.isEmpty_iff] at ho
      subst ho
      simpa [scrapeAllLoop] using ih hrest

/-- When the outcomes are some failures followed by a non-empty success,
the loop returns the accumulator extended by exactly that success. -/
theorem scrapeAllLoop_winner (pre post : List ScrapeOutcome) (l acc : List ScrapedPrice)
    (hpre : ∀ o ∈ pre, failedOutcome o = true) (hl : l ≠ []) :
    scrapeAllLoop (pre ++ Except.ok l :: post) acc = acc ++ l := by
  induction pre with
  | nil =>
    have : l.length > 0 := List.length_pos.mpr hl
    simp [scrapeAllLoop, this]
  | cons o rest ih =>
    have ho := hpre o (List.mem_cons_self o rest)
    have hrest : ∀ x ∈ rest, failedOutcome x = true := fun x hm => hpre x (List.mem_cons_of_mem _ hm)
    cases o with
    | error e => simpa [scrapeAllLoop] using ih hrest
    | ok l' =>
      simp only [failedOutcome, List.isEmpty_iff] at ho
      subst ho
      simpa [scrapeAllLoop] using ih hrest

/-- The loop invokes one provider per iteration and stops right after the
first non-empty success: exactly `pre.length + 1` invocations. -/
theorem scrapeAllInvoked_winner (pre post : List ScrapeOutcome) (l : List ScrapedPrice)
    (hpre : ∀ o ∈ pre, failedOutcome o = true) (hl : l ≠ []) :
    scrapeAllInvoked (pre ++ Except.ok l :: post) = pre.length + 1 := by
  induction pre with
  | nil =>
    have : l.length > 0 := List.length_pos.mpr hl
    simp [scrapeAllInvoked, this]
  | cons o rest ih =>
    have ho := hpre o (List.mem_cons_self o rest)
    have hrest : ∀ x ∈ rest, failedOutcome x = true := fun x hm => hpre x (List.mem_cons_of_mem _ hm)
    cases o with
    | error e =>
      simp only [List.cons_append, scrapeAllInvoked, List.append_eq, List.length_cons]
      have := ih hrest
      omega
    | ok l' =>
      simp only [failedOutcome, List.isEmpty_iff] at ho
      subst ho
      simp only [List.cons_append, scrapeAllInvoked, List.append_eq, List.length_cons,
        List.length_nil, gt_iff_lt, lt_self_iff_false, if_false]
      have := ih hrest
      omega

/-- **C1.**  When every provider before position `pre.length` fails (error
or zero records) and the provider there succeeds with a non-empty record
list `l`, `ScrapeAll` returns exactly `l` — the winner's entire result, no
merging with other providers — and invokes exactly the first
`pre.length + 1` providers, so the providers after the winner are never
invoked. -/
theorem scrapeAll_first_success_wins (pre post : List ScrapeOutcome) (l : List ScrapedPrice)
    (hpre : ∀ o ∈ pre, failedOutcome o = true) (hl : l ≠ []) :
    scrapeAll (pre ++ Except.ok l :: post) = Except.ok l ∧
    scrapeAllInvoked (pre ++ Except.ok l :: post) = pre.length + 1 := by
  refine ⟨?_, scrapeAllInvoked_winner pre post l hpre hl⟩
  have hloop := scrapeAllLoop_winner pre post l [] hpre hl
  simp only [List.nil_append] at hloop
  simp [scrapeAll, hloop, List.length_eq_zero, hl]

/-- Witness for C1: the first provider hits a transport error, the second
wins with one record, the third is never invoked (2 of 3 invocations). -/
theorem scrapeAll_first_success_wins_witness :
    scrapeAll [Except.error "net down", Except.ok [sampleLive], Except.ok [sampleOther]] =
      Except.ok [sampleLive] ∧
    scrapeAllInvoked [Except.error "net down", Except.ok [sampleLive], Except.ok [sampleOther]] = 2 := by
  have h := scrapeAll_first_success_wins [Except.error "net down"] [Except.ok [sampleOther]]
    [sampleLive] (by decide) (by decide)
  simpa using h

/-- If some outcome in the list is a non-failure, the loop result is
non-empty. -/
theorem scrapeAllLoop_ne_nil (outcomes : List ScrapeOutcome) (acc : List ScrapedPrice)
    (h : ∃ o ∈ outcomes, failedOutcome o = false) :
    scrapeAllLoop outcomes acc ≠ [] := by
  induction outcomes generalizing acc with
  | nil => simp at h
  | cons o rest ih =>
    obtain ⟨w, hw, hwf⟩ := h
    cases o with
    | error e =>
      rcases List.mem_cons.mp hw with he | hm
      · subst he; simp [failedOutcome] at hwf
      · exact (by simpa [scrapeAllLoop] using ih acc ⟨w, hm, hwf⟩)
    | ok l =>
      by_cases hl : l.length > 0
      · simp only [scrapeAllLoop, hl, if_true]
        intro hc
        rcases List.append_eq_nil.mp hc with ⟨-, hl0⟩
        subst hl0
        simp at hl
      · rcases List.mem_cons.mp hw with he | hm
        · subst he
          cases l with
          | nil => simp [failedOutcome] at hwf
          | cons a as => simp at hl
        · simp only [scrapeAllLoop]
          rw [if_neg hl]
          exact ih acc ⟨w, hm, hwf⟩

/-- **C2.**  `ScrapeAll` returns the aggregate error "all scrapers failed"
iff every provider, tried in order, errors or returns zero records; and a
successful (`ok`) return always carries a non-empty record sequence. -/
theorem scrapeAll_aggregate_failure_iff (outcomes : List ScrapeOutcome) :
    (scrapeAll outcomes = Except.error "all scrapers failed" ↔
      ∀ o ∈ outcomes, failedOutcome o = true) ∧
    (∀ l, scrapeAll outcomes = Except.ok l → l ≠ []) := by
  constructor
  · constructor
    · intro h o ho
      by_contra hno
      have hf : failedOutcome o = false := by
        cases hfo : failedOutcome o
        · rfl
        · exact absurd hfo hno
      have := scrapeAllLoop_ne_nil outcomes [] ⟨o, ho, hf⟩
      simp only [scrapeAll] at h
      split at h
      · next hlen => exact this (List.length_eq_zero.mp hlen)
      · exact Except.noConfusion h
    · intro h
      have hloop := scrapeAllLoop_all_failed outcomes [] h
      simp [scrapeAll, hloop]
  · intro l h
    simp only [scrapeAll] at h
    split at h
    · exact Except.noConfusion h
    · next hlen =>
      intro hnil
      apply hlen
      have := Except.ok.inj h
      rw [← this] at hnil
      simp [hnil]

/-- Witness for C2: a zero-record success followed by an error yields the
aggregate failure, and a concrete successful pass has a non-empty batch. -/
theorem scrapeAll_aggregate_failure_iff_witness :
    scrapeAll [Except.ok [], Except.error "boom"] = Except.error "all scrapers failed" ∧
    [sampleLive] ≠ [] :=
  ⟨(scrapeAll_aggregate_failure_iff [Except.ok [], Except.error "boom"]).1.mpr (by decide),
   (scrapeAll_aggregate_failure_iff [Except.ok [sampleLive]]).2 [sampleLive] rfl⟩

/-! ## The research-backed simulated provider -/

/-- Go's truncating `% 5` always lies strictly between -5 and 5. -/
theorem tmod_five_bounds (t : ℤ) : -5 < t.tmod 5 ∧ t.tmod 5 < 5 := by
  cases t with
  | ofNat m =>
    have h : m % 5 < 5 := Nat.mod_lt m (by omega)
    have he : (Int.ofNat m).tmod 5 = ((m % 5 : ℕ) : ℤ) := rfl
    rw [he]
    omega
  | negSucc m =>
    have h : (m + 1) % 5 < 5 := Nat.mod_lt (m + 1) (by omega)
    have he : (Int.negSucc m).tmod 5 = -(((m + 1) % 5 : ℕ) : ℤ) := rfl
    rw [he]
    omega

/-- The daily variation factor is positive for every time value. -/
theorem mockFactor_pos (t : ℤ) : 0 < mockFactor t := by
  have hb := (tmod_five_bounds t).1
  have hv : (-7 : ℚ) < ((mockVariation t : ℤ) : ℚ) := by
    have : (-7 : ℤ) < mockVariation t := by
      simp only [mockVariation]; omega
    exact_mod_cast this
  have h100 : (0 : ℚ) < 100 := by norm_num
  have : (0 : ℚ) < 100 + (mockVariation t : ℚ) := by linarith
  calc (0 : ℚ) < (100 + (mockVariation t : ℚ)) / 100 := div_pos this h100
    _ = mockFactor t := by simp only [mockFactor]; ring

/-- For nonnegative unix times (every time after 1970) the daily factor
stays within ±2% of 1. -/
theorem mockFactor_bound (t : ℤ) (ht : 0 ≤ t) : |mockFactor t - 1| ≤ 2 / 100 := by
  have hlo : 0 ≤ t.tmod 5 := Int.tmod_nonneg 5 ht
  have hhi := (tmod_five_bounds t).2
  have h1 : (-2 : ℤ) ≤ mockVariation t := by simp only [mockVariation]; omega
  have h2 : mockVariation t ≤ 2 := by simp only [mockVariation]; omega
  have h1q : (-2 : ℚ) ≤ (mockVariation t : ℚ) := by exact_mod_cast h1
  have h2q : ((mockVariation t : ℤ) : ℚ) ≤ 2 := by exact_mod_cast h2
  have : mockFactor t - 1 = (mockVariation t : ℚ) / 100 := by
    simp only [mockFactor]; ring
  rw [this, abs_le]
  constructor <;> [linarith; linarith]

/-- Every record of a mock scrape at a nonnegative time comes from one
dataset entry: same region, the stamped source string, and a price within
±2% of that entry's base price. -/
theorem mockScrape_price_bound (t : ℤ) (ht : 0 ≤ t) (p : ScrapedPrice)
    (hp : p ∈ mockScrape t) :
    ∃ rp ∈ lastResearch, p.Region = rp.1 ∧
      p.Source = rp.2.Source ++ " (Last checked: " ++ rp.2.DateYMD ++ ")" ∧
      |p.Price - rp.2.BasePrice| ≤ rp.2.BasePrice * (2 / 100) := by
  obtain ⟨rp, hrp, hpe⟩ := List.mem_map.mp hp
  refine ⟨rp, hrp, ?_, ?_, ?_⟩
  · rw [← hpe]
  · rw [← hpe]
  · have hbase : (0 : ℚ) ≤ rp.2.BasePrice := by
      have : ∀ x ∈ lastResearch, (0 : ℚ) ≤ x.2.BasePrice := by decide
      exact this rp hrp
    have hfac := mockFactor_bound t ht
    have : p.Price - rp.2.BasePrice = rp.2.BasePrice * (mockFactor t - 1) := by
      rw [← hpe]; ring
    rw [this, abs_mul, abs_of_nonneg hbase]
    exact mul_le_mul_of_nonneg_left hfac hbase

/-- The stamped source string `A ++ " (Last checked: " ++ d ++ ")"`
contains "Last checked:" as a substring. -/
theorem append_contains_last_checked (A d : String) :
    ∃ pre post : String,
      A ++ " (Last checked: " ++ d ++ ")" = pre ++ "Last checked:" ++ post := by
  refine ⟨A ++ " (", " " ++ d ++ ")", ?_⟩
  have key : ∀ X : String, " (" ++ ("Last checked:" ++ (" " ++ X)) = " (Last checked: " ++ X := by
    intro X
    rw [← String.append_assoc, ← String.append_assoc]
    have : (" (" ++ "Last checked:") ++ " " = " (Last checked: " := rfl
    rw [this]
  simp only [String.append_assoc]
  rw [key]

/-- **C3 (amended).**  At any nonnegative unix time the fallback provider
`MockScraperWithRealData.Scrape` never fails (its outcome is always `ok`)
and returns exactly one record per region of the research dataset — 5
records, distinct regions, exactly the dataset's regions — each priced
within ±2% of that region's base price and with source
`"{original source} (Last checked: {dateChecked as YYYY-MM-DD})"` (note
the space before the parenthesis), which contains the substring
"Last checked:".  The claim's space-free template
`"{original source}(Last checked: ...)"` is refuted by
`mockScrape_source_spacing_counterexample`. -/
theorem mockScrape_fallback_batch (t : ℤ) (ht : 0 ≤ t) :
    mockOutcome t = Except.ok (mockScrape t) ∧
    (mockScrape t).length = 5 ∧
    (mockScrape t).map ScrapedPrice.Region = lastResearch.map Prod.fst ∧
    ((mockScrape t).map ScrapedPrice.Region).Nodup ∧
    ∀ p ∈ mockScrape t, ∃ rp ∈ lastResearch, p.Region = rp.1 ∧
      p.Source = rp.2.Source ++ " (Last checked: " ++ rp.2.DateYMD ++ ")" ∧
      (∃ pre post : String, p.Source = pre ++ "Last checked:" ++ post) ∧
      |p.Price - rp.2.BasePrice| ≤ rp.2.BasePrice * (2 / 100) := by
  have hreg : (mockScrape t).map ScrapedPrice.Region = lastResearch.map Prod.fst := rfl
  refine ⟨rfl, rfl, hreg, by rw [hreg]; decide, ?_⟩
  intro p hp
  obtain ⟨rp, hrp, hr, hs, hb⟩ := mockScrape_price_bound t ht p hp
  exact ⟨rp, hrp, hr, hs, hs ▸ append_contains_last_checked rp.2.Source rp.2.DateYMD, hb⟩

/-- Witness for C3 at time 0. -/
theorem mockScrape_fallback_batch_witness :
    (0 : ℤ) ≤ 0 ∧ (mockScrape 0).length = 5 :=
  ⟨le_refl 0, (mockScrape_fallback_batch 0 (le_refl 0)).2.1⟩

/-- Counterexample for C3 as stated: the Jember record's source is
`"DPRD Jember Report (Last checked: 2024-09-15)"`, with a space between
the original source and the parenthesis, which differs from the claimed
template `"{original source}(Last checked: {date})"`. -/
theorem mockScrape_source_spacing_counterexample :
    ((mockScrape 0).filter (fun p => p.Region == "Jember")).map ScrapedPrice.Source =
      ["DPRD Jember Report (Last checked: 2024-09-15)"] ∧
    "DPRD Jember Report (Last checked: 2024-09-15)" ≠
      "DPRD Jember Report" ++ "(Last checked: " ++ "2024-09-15" ++ ")" := by decide

/-- **C6.**  Two mock scrapes at times with the same time-derived cycle
value (`unix time tmod 5`, Go's truncating `%`) return identical
(region, price) batches; and at any nonnegative time every returned price
stays within ±2% of its region's configured base price. -/
theorem mockScrape_cycle_window (t1 t2 : ℤ) (h1 : 0 ≤ t1) (h2 : 0 ≤ t2) :
    (t1.tmod 5 = t2.tmod 5 →
      (mockScrape t1).map (fun p => (p.Region, p.Price)) =
        (mockScrape t2).map (fun p => (p.Region, p.Price))) ∧
    ∀ p ∈ mockScrape t1, ∃ rp ∈ lastResearch, p.Region = rp.1 ∧
      |p.Price - rp.2.BasePrice| ≤ rp.2.BasePrice * (2 / 100) := by
  constructor
  · intro hc
    have hf : mockFactor t1 = mockFactor t2 := by
      simp only [mockFactor, mockVariation, hc]
    simp only [mockScrape, List.map_map, Function.comp, hf]
    rfl
  · intro p hp
    obtain ⟨rp, hrp, hr, _, hb⟩ := mockScrape_price_bound t1 h1 p hp
    exact ⟨rp, hrp, hr, hb⟩

/-- Witness for C6: unix times 3 and 8 share cycle value 3 and produce
identical price batches. -/
theorem mockScrape_cycle_window_witness :
    (mockScrape 3).map (fun p => (p.Region, p.Price)) =
      (mockScrape 8).map (fun p => (p.Region, p.Price)) :=
  (mockScrape_cycle_window 3 8 (by decide) (by decide)).1 (by decide)

/-! ## The live-source provider and the accepted-batch invariant -/

/-- A row retained by the live scraper always carries a positive price:
the `price > 0` guard is the only path that produces a record. -/
theorem scrapeRow_pos (url : String) (t : ℤ) (row : Row) (p : ScrapedPrice)
    (hp : p ∈ scrapeRow url t row) : 0 < p.Price := by
  simp only [scrapeRow] at hp
  split at hp
  · simp at hp
  · split at hp
    · next hpos =>
      rw [List.mem_singleton.mp hp]
      exact hpos
    · simp at hp

/-- A row whose cleaned price string fails to parse or parses to a value
≤ 0 is discarded: it contributes no record at all. -/
theorem scrapeRow_discard (url : String) (t : ℤ) (row : Row)
    (hle : extractPrice (trimSpace (row.getD 2 "")).data ≤ 0) : scrapeRow url t row = [] := by
  simp only [scrapeRow]
  split
  · rfl
  · rw [if_neg (not_lt.mpr hle)]

/-- Every record of a live scrape has a positive price. -/
theorem bappebtiScrape_pos (pages : List (String × Page)) (t : ℤ) (p : ScrapedPrice)
    (hp : p ∈ bappebtiScrape pages t) : 0 < p.Price := by
  simp only [bappebtiScrape, List.mem_flatMap] at hp
  obtain ⟨up, hup, hp2⟩ := hp
  cases h : up.2 with
  | none => rw [h] at hp2; simp at hp2
  | some rows =>
    rw [h] at hp2
    simp only [List.mem_flatMap] at hp2
    obtain ⟨row, hrow, hp3⟩ := hp2
    exact scrapeRow_pos up.1 t row p hp3

/-- Every record of a mock scrape has a positive price (at any time: the
daily factor is positive and all base prices are positive). -/
theorem mockScrape_pos (t : ℤ) (p : ScrapedPrice) (hp : p ∈ mockScrape t) : 0 < p.Price := by
  obtain ⟨rp, hrp, hpe⟩ := List.mem_map.mp hp
  have hbase : (0 : ℚ) < rp.2.BasePrice := by
    have : ∀ x ∈ lastResearch, (0 : ℚ) < x.2.BasePrice := by decide
    exact this rp hrp
  have : p.Price = rp.2.BasePrice * mockFactor t := by rw [← hpe]
  rw [this]
  exact mul_pos hbase (mockFactor_pos t)

/-- A successful `ScrapeAll` over the real manager's provider list
returns either the live batch or the mock batch, never a mixture. -/
theorem scrapeAll_manager_cases (pages : List (String × Page)) (t tm : ℤ)
    (l : List ScrapedPrice) (h : scrapeAll (managerOutcomes pages t tm) = Except.ok l) :
    l = bappebtiScrape pages t ∨ l = mockScrape tm := by
  have hM : (mockScrape tm).length = 5 := rfl
  by_cases hB : (bappebtiScrape pages t).length > 0
  · have hloop : scrapeAllLoop (managerOutcomes pages t tm) [] = bappebtiScrape pages t := by
      simp [managerOutcomes, bappebtiOutcome, mockOutcome, scrapeAllLoop, hB]
    simp only [scrapeAll, hloop] at h
    rw [if_neg (by omega)] at h
    exact Or.inl (Except.ok.inj h).symm
  · have hloop : scrapeAllLoop (managerOutcomes pages t tm) [] = mockScrape tm := by
      simp [managerOutcomes, bappebtiOutcome, mockOutcome, scrapeAllLoop, hB, hM]
    simp only [scrapeAll, hloop] at h
    rw [if_neg (by omega)] at h
    exact Or.inr (Except.ok.inj h).symm

/-- **C4.**  Every record in a batch accepted by the coordinator (any
`ok` result of `ScrapeAll` over the real provider list, at any times and
for any fetched pages) has price strictly greater than 0; and a table row
whose cleaned price string fails to parse or parses to ≤ 0 is discarded
by the live scraper before acceptance. -/
theorem scrapeAll_accepted_price_pos (pages : List (String × Page)) (t tm : ℤ)
    (l : List ScrapedPrice) (h : scrapeAll (managerOutcomes pages t tm) = Except.ok l) :
    (∀ p ∈ l, 0 < p.Price) ∧
    (∀ url row, extractPrice (trimSpace (row.getD 2 "")).data ≤ 0 → scrapeRow url t row = []) := by
  refine ⟨?_, fun url row hle => scrapeRow_discard url t row hle⟩
  intro p hp
  rcases scrapeAll_manager_cases pages t tm l h with rfl | rfl
  · exact bappebtiScrape_pos pages t p hp
  · exact mockScrape_pos tm p hp

/-- Witness for C4: the batch accepted from `samplePages` consists of
`sampleParsed`, whose price is positive. -/
theorem scrapeAll_accepted_price_pos_witness : 0 < sampleParsed.Price := by
  have hB : bappebtiScrape samplePages 0 = [sampleParsed] := by with_unfolding_all decide
  have hloop : scrapeAllLoop (managerOutcomes samplePages 0 0) [] = [sampleParsed] := by
    simp [managerOutcomes, bappebtiOutcome, mockOutcome, scrapeAllLoop, hB]
  have hAll : scrapeAll (managerOutcomes samplePages 0 0) = Except.ok [sampleParsed] := by
    simp [scrapeAll, hloop]
  exact (scrapeAll_accepted_price_pos samplePages 0 0 [sampleParsed] hAll).1 sampleParsed
    (List.mem_singleton.mpr rfl)

/-! ## Persistence of an accepted batch -/

/-- The save loop keeps exactly the records whose insert succeeds. -/
theorem saveLoop_eq_filter (saveOk : ScrapedPrice → Bool) (l : List ScrapedPrice) :
    saveLoop saveOk l = l.filter saveOk := by
  induction l with
  | nil => rfl
  | cons p rest ih =>
    by_cases h : saveOk p
    · simp [saveLoop, List.filter_cons, h, ih]
    · simp [saveLoop, List.filter_cons, h, ih]

/-- **C8.**  When `ScrapeAll` accepts a batch `l`, the persistence pass of
`AutoFetchPricesFromScraper` hands each record to `SaveScrapedPrice`
individually: a failed insert is skipped without aborting the rest (the
persisted records are exactly the filter of `l` by insert success — later
records are persisted even when an earlier insert failed) and the function
still returns success (`nil` error). -/
theorem autoFetch_per_record_resilience (outcomes : List ScrapeOutcome)
    (saveOk : ScrapedPrice → Bool) (l : List ScrapedPrice)
    (h : scrapeAll outcomes = Except.ok l) :
    autoFetchPricesFromScraper outcomes saveOk = (Except.ok (), l.filter saveOk) ∧
    ∀ p ∈ l, saveOk p = true → p ∈ (autoFetchPricesFromScraper outcomes saveOk).2 := by
  have hmain : autoFetchPricesFromScraper outcomes saveOk = (Except.ok (), l.filter saveOk) := by
    simp [autoFetchPricesFromScraper, h, saveLoop_eq_filter]
  refine ⟨hmain, ?_⟩
  intro p hp hs
  rw [hmain]
  exact List.mem_filter.mpr ⟨hp, hs⟩

/-- Witness for C8: the first insert fails, the second succeeds; the batch
is still reported as successfully fetched and the second record is
persisted. -/
theorem autoFetch_per_record_resilience_witness :
    autoFetchPricesFromScraper [Except.ok [sampleLive, sampleOther]]
      (fun p => p.Region != "Boyolali") = (Except.ok (), [sampleOther]) := by
  have h : scrapeAll [Except.ok [sampleLive, sampleOther]] =
      Except.ok [sampleLive, sampleOther] := rfl
  have := (autoFetch_per_record_resilience [Except.ok [sampleLive, sampleOther]]
    (fun p => p.Region != "Boyolali") [sampleLive, sampleOther] h).1
  rw [this]
  rfl

/-! ## Exact price extraction -/

/-- Cleaning commutes with splitting at the first dot: the cleaned
characters before the first dot are exactly the digits before the first
dot of the raw string. -/
theorem filter_takeWhile_dot (s : List Char) :
    (s.filter isPriceChar).takeWhile (fun c => c != '.') =
      (s.takeWhile (fun c => c != '.')).filter Char.isDigit := by
  induction s with
  | nil => rfl
  | cons c s ih =>
    by_cases hdot : c = '.'
    · subst hdot
      simp [isPriceChar, List.filter_cons, List.takeWhile_cons]
    · by_cases hd : c.isDigit
      · simp [isPriceChar, List.filter_cons, List.takeWhile_cons, hd, hdot, ih]
      · simp [isPriceChar, List.filter_cons, List.takeWhile_cons, hd, hdot, ih]

/-- Cleaning commutes with dropping up to the first dot. -/
theorem filter_dropWhile_dot (s : List Char) :
    (s.filter isPriceChar).dropWhile (fun c => c != '.') =
      (s.dropWhile (fun c => c != '.')).filter isPriceChar := by
  induction s with
  | nil => rfl
  | cons c s ih =>
    by_cases hdot : c = '.'
    · subst hdot
      simp [isPriceChar, List.filter_cons, List.dropWhile_cons]
    · by_cases hd : c.isDigit
      · simp [isPriceChar, List.filter_cons, List.dropWhile_cons, hd, hdot, ih]
      · simp [isPriceChar, List.filter_cons, List.dropWhile_cons, hd, hdot, ih]

/-- Dropping up to the first dot yields either nothing (no dot) or a list
headed by the dot. -/
theorem dropWhile_dot_shape (s : List Char) :
    s.dropWhile (fun c => c != '.') = [] ∨
      ∃ rest, s.dropWhile (fun c => c != '.') = '.' :: rest := by
  induction s with
  | nil => exact Or.inl rfl
  | cons c s ih =>
    by_cases hdot : c = '.'
    · subst hdot
      exact Or.inr ⟨s, by simp [List.dropWhile_cons]⟩
    · simpa [List.dropWhile_cons, hdot] using ih
/-- The dot count splits around the first dot. -/
theorem count_dropWhile_dot (s : List Char) (rest : List Char)
    (h : s.dropWhile (fun c => c != '.') = '.' :: rest) :
    s.count '.' = 1 + rest.count '.' := by
  have hsplit := List.takeWhile_append_dropWhile (l := s) (p := fun c => c != '.')
  have htake : (s.takeWhile (fun c => c != '.')).count '.' = 0 := by
    rw [List.count_eq_zero]
    intro hmem
    have := List.mem_takeWhile_imp hmem
    simp at this
  calc s.count '.'
      = ((s.takeWhile (fun c => c != '.')) ++ (s.dropWhile (fun c => c != '.'))).count '.' := by
        rw [hsplit]
    _ = (s.takeWhile (fun c => c != '.')).count '.' +
          (s.dropWhile (fun c => c != '.')).count '.' := List.count_append ..
    _ = 1 + rest.count '.' := by rw [htake, h]; simp [List.count_cons]; omega

/-- On a dot-free list, keeping digits-and-dots is just keeping digits. -/
theorem no_dot_filter_eq (rest : List Char) (h : rest.count '.' = 0) :
    rest.filter isPriceChar = rest.filter Char.isDigit := by
  apply List.filter_congr
  intro c hc
  have : c ≠ '.' := by
    intro he
    subst he
    rw [List.count_eq_zero] at h
    exact h hc
  simp [isPriceChar, this]

/-- **C5.**  For every raw price string containing at least one digit and
at most one decimal point — digits possibly interleaved with arbitrary
non-numeric separators (currency symbols, thousand separators,
whitespace) — `extractPrice` returns exactly the numeric value formed by
concatenating the digits and the decimal point in their original order
(`specConcatValue`, computed on the raw string independently of the
clean-then-parse pipeline). -/
theorem extractPrice_exact (s : List Char) (hdot : s.count '.' ≤ 1)
    (hdig : s.any Char.isDigit = true) : extractPrice s = specConcatValue s := by
  have hall : (cleanPrice s).all isPriceChar = true := by
    rw [List.all_eq_true]
    intro c hc
    exact (List.mem_filter.mp hc).2
  have hcount : (cleanPrice s).count '.' ≤ 1 :=
    le_trans ((List.filter_sublist s).count_le '.') hdot
  have hany : (cleanPrice s).any Char.isDigit = true := by
    rw [List.any_eq_true] at hdig ⊢
    obtain ⟨c, hc, hcd⟩ := hdig
    exact ⟨c, List.mem_filter.mpr ⟨hc, by simp [isPriceChar, hcd]⟩, hcd⟩
  have hparse : parseFloatQ (cleanPrice s) =
      some ((digitsVal ((cleanPrice s).takeWhile (fun c => c != '.')) : ℚ) +
        (digitsVal (((cleanPrice s).dropWhile (fun c => c != '.')).drop 1) : ℚ) /
          (10 : ℚ) ^ (((cleanPrice s).dropWhile (fun c => c != '.')).drop 1).length) := by
    rw [parseFloatQ, if_pos ⟨hall, hcount, hany⟩]
  have hfrac : ((cleanPrice s).dropWhile (fun c => c != '.')).drop 1 =
      ((s.dropWhile (fun c => c != '.')).drop 1).filter Char.isDigit := by
    rw [cleanPrice, filter_dropWhile_dot]
    rcases dropWhile_dot_shape s with hnil | ⟨rest, hcons⟩
    · rw [hnil]; rfl
    · rw [hcons]
      have hcnt := count_dropWhile_dot s rest hcons
      have hrest : rest.count '.' = 0 := by omega
      rw [List.filter_cons_of_pos (by simp [isPriceChar])]
      simp only [List.drop_succ_cons, List.drop_zero]
      exact no_dot_filter_eq rest hrest
  have hint : (cleanPrice s).takeWhile (fun c => c != '.') =
      (s.takeWhile (fun c => c != '.')).filter Char.isDigit := by
    rw [cleanPrice, filter_takeWhile_dot]
  simp only [extractPrice, hparse, specConcatValue, hint, hfrac]

/-- Witness for C5 on "Rp 12.345," (currency marker, decimal dot and a
trailing separator): extraction yields 12.345. -/
theorem extractPrice_exact_witness :
    extractPrice "Rp 12.345,".data = specConcatValue "Rp 12.345,".data :=
  extractPrice_exact "Rp 12.345,".data (by decide) (by decide)

/-! ## The query-by-region read paths -/

/-- The `ORDER BY created_at DESC LIMIT 1` scan returns a row iff the list
is non-empty, and the returned row's `created_at` is maximal. -/
theorem pickLatest_spec (l : List PriceRow) :
    (pickLatest l = none ↔ l = []) ∧
    ∀ p, pickLatest l = some p → p ∈ l ∧ ∀ q ∈ l, q.created_at.data ≤ p.created_at.data := by
  induction l with
  | nil =>
    constructor
    · simp [pickLatest]
    · intro p hp
      exact Option.noConfusion hp
  | cons a l ih =>
    constructor
    · constructor
      · intro h
        exfalso
        cases hrec : pickLatest l with
        | none =>
          simp only [pickLatest, hrec] at h
          exact Option.noConfusion h
        | some b =>
          simp only [pickLatest, hrec] at h
          split at h <;> exact Option.noConfusion h
      · intro h
        exact List.noConfusion h
    · intro p hp
      cases hrec : pickLatest l with
      | none =>
        simp only [pickLatest, hrec] at hp
        obtain rfl := Option.some.inj hp
        have hl : l = [] := (ih.1).mp hrec
        subst hl
        refine ⟨List.mem_singleton.mpr rfl, ?_⟩
        intro q hq
        rw [List.mem_singleton.mp hq]
      | some b =>
        simp only [pickLatest, hrec] at hp
        obtain ⟨hbmem, hbmax⟩ := ih.2 b hrec
        split at hp
        · next hlt =>
          obtain rfl := Option.some.inj hp
          refine ⟨List.mem_cons_of_mem _ hbmem, ?_⟩
          intro q hq
          rcases List.mem_cons.mp hq with rfl | hq'
          · exact le_of_lt hlt
          · exact hbmax q hq'
        · next hnlt =>
          obtain rfl := Option.some.inj hp
          refine ⟨List.mem_cons_self _ _, ?_⟩
          intro q hq
          rcases List.mem_cons.mp hq with rfl | hq'
          · exact le_refl _
          · exact le_trans (hbmax q hq') (not_lt.mp hnlt)

/-- `GetLatestPriceJSON`: no row iff no record carries the region; a
returned row belongs to the store, matches the region exactly, and has
maximal `created_at` among that region's rows. -/
theorem getLatestPrice_aux (db : List PriceRow) (region : String) :
    (getLatestPrice db region = none ↔ ∀ q ∈ db, ¬ q.region = region) ∧
    ∀ p, getLatestPrice db region = some p →
      p ∈ db ∧ p.region = region ∧
      ∀ q ∈ db, q.region = region → q.created_at.data ≤ p.created_at.data := by
  have hspec := pickLatest_spec (db.filter (fun p => p.region == region))
  constructor
  · rw [getLatestPrice, hspec.1, List.filter_eq_nil_iff]
    constructor
    · intro h q hq hr
      exact absurd (by simp [hr]) (h q hq)
    · intro h q hq
      simp only [beq_iff_eq]
      exact h q hq
  · intro p hp
    obtain ⟨hmem, hmax⟩ := hspec.2 p hp
    obtain ⟨hdb, hbeq⟩ := List.mem_filter.mp hmem
    refine ⟨hdb, by simpa using hbeq, ?_⟩
    intro q hq hr
    exact hmax q (List.mem_filter.mpr ⟨hq, by simp [hr]⟩)
/-- **C9 (amended).**  For every region `R`, the record returned by the
query-by-region read path `GetLatestPriceJSON` is a stored record with
region exactly `R` whose `created_at` is maximal among region-`R` records
(and the path errors iff no such record exists).  Ties between equal
`created_at` values are NOT broken by maximum id — the SQL orders by
`created_at` alone; the model keeps the first tied row in table order (see
`getLatestPrice_tie_counterexample`). -/
theorem getLatestPrice_latest_by_created_at (db : List PriceRow) (region : String) :
    (getLatestPrice db region = none ↔ ∀ q ∈ db, ¬ q.region = region) ∧
    ∀ p, getLatestPrice db region = some p →
      p ∈ db ∧ p.region = region ∧
      ∀ q ∈ db, q.region = region → q.created_at.data ≤ p.created_at.data :=
  getLatestPrice_aux db region

/-- Witness for C9 on a one-row store. -/
theorem getLatestPrice_latest_witness : rowOld.region = "Jember" :=
  (((getLatestPrice_latest_by_created_at [rowOld] "Jember").2 rowOld (by decide)).2).1

/-- Counterexample for C9 as stated: with two region-"Jember" rows sharing
one `created_at`, the query returns `rowOld` (id 1), not the maximum-id
row `rowNew` (id 2) — there is no id tie-breaker. -/
theorem getLatestPrice_tie_counterexample :
    getLatestPrice [rowOld, rowNew] "Jember" = some rowOld ∧
    rowNew ∈ [rowOld, rowNew] ∧ rowNew.region = "Jember" ∧
    rowNew.created_at = rowOld.created_at ∧ rowOld.id < rowNew.id := by decide

/-- **C7 (amended).**  The handler for `GET /harga/current?region=R`
performs a database read, not a preview scrape: it calls
`GetLatestPriceJSON` on `R` (defaulting to "Jember" when `R` is empty) and
returns the stored record with region exactly equal to `R` having maximal
`created_at`, or an error when no stored record matches.  It does not run
an acquisition pass, and its region match is exact, not case-insensitive
(`GetScrapedPriceJSON`, the spec's `previewRegion`, exists in the code but
is not wired to any route; see
`getCurrentPriceHandler_not_preview_counterexample`). -/
theorem getCurrentPriceHandler_reads_store (db : List PriceRow) (q : String) :
    getCurrentPriceHandler db q = getLatestPrice db (if q = "" then "Jember" else q) ∧
    ∀ p, getCurrentPriceHandler db q = some p →
      p ∈ db ∧ p.region = (if q = "" then "Jember" else q) ∧
      ∀ r ∈ db, r.region = (if q = "" then "Jember" else q) → r.created_at.data ≤ p.created_at.data := by
  constructor
  · rfl
  · intro p hp
    exact (getLatestPrice_aux db (if q = "" then "Jember" else q)).2 p hp

/-- Witness for C7 on a one-row store with an empty region parameter
(defaulted to "Jember"). -/
theorem getCurrentPriceHandler_reads_store_witness : rowNew ∈ [rowNew] :=
  (((getCurrentPriceHandler_reads_store [rowNew] "").2 rowNew (by decide))).1

/-- Counterexample for C7 as stated: with an empty store, the handler
reports not-found for "Jember" even though a fresh `acquireAll` pass (live
source down, fallback provider at time 0) yields a batch whose
case-insensitive "Jember" match exists — so the handler cannot be
`previewRegion` over the accepted batch. -/
theorem getCurrentPriceHandler_not_preview_counterexample :
    getCurrentPriceHandler [] "Jember" = none ∧
    (getScrapedPrice (managerOutcomes [("u", none)] 0 0) "Jember").toOption.map
      ScrapedPrice.Region = some "Jember" := ⟨rfl, rfl⟩

/-! ## Persistence normalization (`SaveScrapedPrice`) -/

/-- **C10.**  `SaveScrapedPrice` stores the unit as exactly "kg" regardless
of the record's contents and the source as the record's source followed by
" (Scraped: " plus its quality plus ")"; the persisted source is therefore
never empty, and a record of the simulated fallback provider is persisted
with the " (Scraped: Standard)" suffix in addition to its "Last checked:"
label. -/
theorem saveScrapedPrice_normalization (data : ScrapedPrice)
    (recordedAtStr createdAt : String) (newId : ℕ) :
    (saveScrapedPrice data recordedAtStr newId createdAt).unit = "kg" ∧
    (saveScrapedPrice data recordedAtStr newId createdAt).source =
      data.Source ++ " (Scraped: " ++ data.Quality ++ ")" ∧
    (saveScrapedPrice data recordedAtStr newId createdAt).source ≠ "" ∧
    ∀ t : ℤ, ∀ p ∈ mockScrape t,
      (∃ pre, (saveScrapedPrice p recordedAtStr newId createdAt).source =
          pre ++ " (Scraped: Standard)") ∧
      ∃ pre post, (saveScrapedPrice p recordedAtStr newId createdAt).source =
          pre ++ "Last checked:" ++ post := by
  refine ⟨rfl, rfl, ?_, ?_⟩
  · intro he
    have hlen := congrArg String.length he
    simp only [saveScrapedPrice] at hlen
    rw [String.length_append, String.length_append, String.length_append] at hlen
    have h1 : (")" : String).length = 1 := rfl
    have h0 : ("" : String).length = 0 := rfl
    omega
  · intro t p hp
    obtain ⟨rp, hrp, hpe⟩ := List.mem_map.mp hp
    constructor
    · refine ⟨p.Source, ?_⟩
      have hq : p.Quality = "Standard" := by rw [← hpe]
      show p.Source ++ " (Scraped: " ++ p.Quality ++ ")" = p.Source ++ " (Scraped: Standard)"
      rw [hq]
      simp only [String.append_assoc]
      rw [show (" (Scraped: " ++ ("Standard" ++ ")")) = " (Scraped: Standard)" from rfl]
    · have hsrc : p.Source = rp.2.Source ++ " (Last checked: " ++ rp.2.DateYMD ++ ")" := by
        rw [← hpe]
      obtain ⟨pre, post0, hdecomp⟩ :=
        append_contains_last_checked rp.2.Source rp.2.DateYMD
      refine ⟨pre, post0 ++ (" (Scraped: " ++ (p.Quality ++ ")")), ?_⟩
      show p.Source ++ " (Scraped: " ++ p.Quality ++ ")" =
        pre ++ "Last checked:" ++ (post0 ++ (" (Scraped: " ++ (p.Quality ++ ")")))
      rw [hsrc, hdecomp]
      simp only [String.append_assoc]

/-- Witness for C10: the Jember fallback record persisted with id 7. -/
theorem saveScrapedPrice_normalization_witness :
    ∃ pre, (saveScrapedPrice ((mockScrape 0).getD 0 sampleLive) "2024-10-01 08:00:00" 7
        "2024-10-01 08:00:00").source = pre ++ " (Scraped: Standard)" :=
  ((saveScrapedPrice_normalization ((mockScrape 0).getD 0 sampleLive)
      "2024-10-01 08:00:00" "2024-10-01 08:00:00" 7).2.2.2 0 ((mockScrape 0).getD 0 sampleLive)
    (List.mem_cons_self _ _)).1

end FangPro
